import Mathlib

/-!
Verification development for the `reason` library (src/src/lib.rs,
src/src/error.rs, src/src/tool.rs): a shallow embedding of the executor
bootstrap orchestrator and the streaming completion engine, together with
theorems settling the frozen behavioural claims.

Conventions of the embedding:
* Rust `String`/`str` become Lean `String`; byte buffers become `List Char`
  (the protocol data relevant here is ASCII, and in UTF-8 the newline byte
  0x0A only ever occurs as the character `'\n'`).
* `std::time::Instant` / `Duration` become a ghost clock: each processed
  delta carries an abstract observation time `now : Nat`, and an elapsed
  duration is the difference of two such times.
* Fallible operations return `Option`/`Except`; external environment
  outcomes (process spawns, HTTP attempts) are passed in explicitly.
-/

namespace Reason

/-- `listStartsWith p l` models Rust `l.starts_with(p)` on lists. -/
def listStartsWith : List Char → List Char → Bool
  | [], _ => true
  | _ :: _, [] => false
  | a :: as, b :: bs => a = b && listStartsWith as bs

/-- `listContains p l` models Rust substring search: does `p` occur
contiguously inside `l`? -/
def listContains : List Char → List Char → Bool
  | p, [] => p.isEmpty
  | p, c :: rest => listStartsWith p (c :: rest) || listContains p rest

/-- Model of Rust `str::contains` for a pattern string: `strContains s pat`
is true when `pat` occurs as a contiguous substring of `s`. -/
def strContains (s pat : String) : Bool :=
  listContains pat.data s.data

/-! ## Data model (src/src/lib.rs, src/src/tool.rs) -/

/-- `tool::Call` from src/src/tool.rs; `Id` is a newtype over `String`. -/
inductive Call
  | Function (id : String) (name : String) (arguments : String)
deriving DecidableEq

/-- `Reasoning` from src/src/lib.rs: accumulated reasoning text plus the
time spent in reasoning mode. `Reasoning::default()` is `⟨"", 0⟩`. -/
structure Reasoning where
  text : String
  duration : Nat
deriving DecidableEq

/-- `Output` from src/src/lib.rs. -/
inductive Output
  | Reasoning (r : Reason.Reasoning)
  | Message (text : String)
  | ToolCalls (calls : List Call)
deriving DecidableEq

/-- `Event` from src/src/lib.rs. -/
inductive Event
  | OutputAdded (output : Output)
  | TextChanged (delta : String) (duration : Nat)
  | ToolCallAdded (id : String) (name : String) (arguments : String)
  | ArgumentsChanged (delta : String) (duration : Nat)
deriving DecidableEq

/-- The tool-call delta shapes of the streaming payload (`ToolCall` in
`Reason::complete`): a new call (with id, name and initial arguments) or an
arguments-only update. -/
inductive ToolCallDelta
  | New (id : String) (name : String) (arguments : String)
  | Update (arguments : String)
deriving DecidableEq

/-- The two disjoint delta shapes of one streamed choice (`Delta` in
`Reason::complete`): a text-content delta or a tool-call delta. -/
inductive Delta
  | Text (content : String)
  | Call (toolCall : ToolCallDelta)
deriving DecidableEq

/-- `Mode` from `Reason::complete`. -/
inductive Mode
  | reasoning
  | messaging
  | toolCalling
deriving DecidableEq

/-- The classifier state of `Reason::complete`: `mode : Option Mode`
(starting as `None`) plus the ghost timestamp at which the current mode
started (`mode_started_at`). -/
structure ClsState where
  mode : Option Mode
  modeStartedAt : Nat
deriving DecidableEq

/-- Mode classification of one delta, embedded from the
`match &choice.delta` block of `Reason::complete` (src/src/lib.rs lines
435-510). `now` is the ghost observation time of this delta; elapsed
durations are `now - modeStartedAt`. -/
def classifyDelta (st : ClsState) (now : Nat) : Delta → ClsState × List Event
  | Delta.Text content =>
    if (st.mode = none ∨ st.mode = some Mode.messaging) ∧
        strContains content "<think>" = true then
      (⟨some Mode.reasoning, now⟩,
        [Event.OutputAdded (Output.Reasoning ⟨"", 0⟩)])
    else if st.mode = some Mode.reasoning ∧
        strContains content "</think>" = true then
      (⟨some Mode.messaging, now⟩, [])
    else
      let st2 : ClsState := if st.mode = none then ⟨some Mode.messaging, now⟩ else st
      let pre : List Event :=
        if st.mode = none then [Event.OutputAdded (Output.Message "")] else []
      match st2.mode with
      | some Mode.reasoning =>
        (st2, pre ++ [Event.TextChanged content (now - st2.modeStartedAt)])
      | some Mode.messaging =>
        (st2, pre ++ [Event.TextChanged content (now - st2.modeStartedAt)])
      | _ => (st2, pre)
  | Delta.Call tc =>
    let st2 : ClsState :=
      if st.mode = some Mode.toolCalling then st else ⟨some Mode.toolCalling, now⟩
    let pre : List Event :=
      if st.mode = some Mode.toolCalling then []
      else [Event.OutputAdded (Output.ToolCalls [])]
    match tc with
    | ToolCallDelta.New id name args =>
      (st2, pre ++ [Event.ToolCallAdded id name args])
    | ToolCallDelta.Update args =>
      (st2, pre ++ [Event.ArgumentsChanged args (now - st2.modeStartedAt)])

/-- Run the classifier over a sequence of timestamped deltas, concatenating
the emitted events in order. -/
def classifyAll (st : ClsState) : List (Nat × Delta) → ClsState × List Event
  | [] => (st, [])
  | (t, d) :: rest =>
    ((classifyAll (classifyDelta st t d).1 rest).1,
      (classifyDelta st t d).2 ++ (classifyAll (classifyDelta st t d).1 rest).2)

/-- `Backend` from src/src/lib.rs. -/
inductive Backend
  | Cpu
  | Cuda
  | Rocm
deriving DecidableEq

/-- `Backend::detect` (src/src/lib.rs lines 542-550). -/
def Backend.detect (graphics_adapter : String) : Backend :=
  if strContains graphics_adapter "NVIDIA" = true then Backend.Cuda
  else if strContains graphics_adapter "AMD" = true then Backend.Rocm
  else Backend.Cpu

/-- `Backend::uses_gpu` (src/src/lib.rs lines 552-557). -/
def Backend.uses_gpu : Backend → Bool
  | Backend.Cuda => true
  | Backend.Rocm => true
  | Backend.Cpu => false

end Reason

namespace Reason

/-- `Reply` from src/src/lib.rs: the ordered list of outputs accumulated
from the event stream. -/
structure Reply where
  outputs : List Output
deriving DecidableEq

/-- `Reply::update` (src/src/lib.rs lines 636-678), the pure event fold:
`OutputAdded` appends; `TextChanged` extends the trailing Reasoning or
Message output (updating the Reasoning duration); `ToolCallAdded` appends a
call to a trailing ToolCalls output; `ArgumentsChanged` extends the
arguments of the last call of a trailing ToolCalls output; every mismatch
leaves the reply unchanged. -/
def Reply.update (r : Reply) : Event → Reply
  | Event.OutputAdded o => ⟨r.outputs ++ [o]⟩
  | Event.TextChanged delta duration =>
    match r.outputs.getLast? with
    | some (Output.Reasoning rs) =>
      ⟨r.outputs.dropLast ++ [Output.Reasoning ⟨rs.text ++ delta, duration⟩]⟩
    | some (Output.Message t) =>
      ⟨r.outputs.dropLast ++ [Output.Message (t ++ delta)]⟩
    | _ => r
  | Event.ToolCallAdded id name arguments =>
    match r.outputs.getLast? with
    | some (Output.ToolCalls calls) =>
      ⟨r.outputs.dropLast ++ [Output.ToolCalls (calls ++ [Call.Function id name arguments])]⟩
    | _ => r
  | Event.ArgumentsChanged delta _ =>
    match r.outputs.getLast? with
    | some (Output.ToolCalls calls) =>
      match calls.getLast? with
      | some (Call.Function id name arguments) =>
        ⟨r.outputs.dropLast ++
          [Output.ToolCalls (calls.dropLast ++ [Call.Function id name (arguments ++ delta)])]⟩
      | none => r
    | _ => r

/-- Folding a whole event sequence into a reply, as `Reason::reply` does
(`reply.update(&event)` for each streamed event, in order). -/
def updateAll (r : Reply) (events : List Event) : Reply :=
  events.foldl Reply.update r

/-- Plain concatenation of a list of strings, no separators. -/
def concatAll : List String → String
  | [] => ""
  | s :: rest => s ++ concatAll rest

/-! ## Error taxonomy (src/src/error.rs) and external-interaction models -/

/-- `Error` from src/src/error.rs (payloads of the wrapped external error
values are irrelevant here and omitted; the static reason strings of
`DockerFailed`/`ExecutorFailed` are kept). -/
inductive Error
  | RequestFailed
  | IOFailed
  | DockerFailed (reason : String)
  | ExecutorFailed (reason : String)
  | SerdeFailed
  | JoinFailed
  | NoExecutorAvailable
deriving DecidableEq

/-- Outcome of one readiness attempt of `Reason::connect`: either the
request itself failed (transport failure or the 5-second per-attempt
timeout, i.e. `send()` returned `Err`), or a response arrived whose status
is 2xx (`success = true`) or not. -/
inductive Attempt
  | transportError
  | response (success : Bool)
deriving DecidableEq

/-- The retry loop of `Reason::connect` (src/src/lib.rs lines 44-60) over a
finite prefix of attempt outcomes: `none` means the loop is still running
after consuming all listed attempts. A transport error propagates via `?`
as `RequestFailed`; a 2xx response breaks the loop; a non-2xx response
sleeps one second and retries. -/
def connectLoop : List Attempt → Option (Except Error Unit)
  | [] => none
  | Attempt.transportError :: _ => some (Except.error Error.RequestFailed)
  | Attempt.response true :: _ => some (Except.ok ())
  | Attempt.response false :: rest => connectLoop rest

/-- `Reason::connect` (src/src/lib.rs lines 40-66): `urlOk` is whether
`host.into_url()` succeeds (a malformed URL yields a reqwest error, i.e.
`RequestFailed`); then the readiness loop runs. The resolved value `()`
stands for the constructed client handle. -/
def connect (urlOk : Bool) (attempts : List Attempt) : Option (Except Error Unit) :=
  if urlOk then connectLoop attempts else some (Except.error Error.RequestFailed)

/-- The executor variant chosen by `Reason::boot`: `Server::Process` or
`Server::Container { id }` (the remote variant is not reachable from
boot). -/
inductive ExecKind
  | process
  | container (id : String)
deriving DecidableEq

/-- External commands `Reason::boot` can run, in the order it runs them. -/
inductive Action
  | llamaVersionProbe
  | llamaLaunch
  | dockerVersionProbe
  | dockerCreate
  | dockerStart
  | dockerLogs
deriving DecidableEq

/-- Environment outcomes for one run of `Reason::boot`'s executor-selection
phase (src/src/lib.rs lines 94-244):
* `llamaVersion`: `llama-server --version` spawned and was awaited Ok;
* `versionRead`: reading its stdout lines succeeded (else `?` → IOFailed);
* `llamaSpawn`: spawning the local llama-server succeeded;
* `dockerVersion`: `docker version` spawned and was awaited Ok;
* `createSpawn`: spawning `docker create` succeeded;
* `createIdLine`: reading the first stdout line of `docker create` —
  `none` is an I/O error, `some none` means no line was produced,
  `some (some id)` is the container id;
* `waitRead` / `waitSuccess`: awaiting `docker create`'s exit succeeded /
  the exit status was successful;
* `startRun`: `docker start` ran to completion;
* `logsSpawn`: spawning `docker logs -f` succeeded. -/
structure BootEnv where
  llamaVersion : Bool
  versionRead : Bool
  llamaSpawn : Bool
  dockerVersion : Bool
  createSpawn : Bool
  createIdLine : Option (Option String)
  waitRead : Bool
  waitSuccess : Bool
  startRun : Bool
  logsSpawn : Bool

/-- The executor-selection phase of `Reason::boot` (the big
`if let Ok(version) = ... else if let Ok(_docker) = ... else` expression,
src/src/lib.rs lines 94-244), returning the selected executor variant or
the propagated error, together with the list of external commands
attempted, in order. -/
def bootSelect (env : BootEnv) : Except Error ExecKind × List Action :=
  if env.llamaVersion then
    if env.versionRead = false then
      (Except.error Error.IOFailed, [Action.llamaVersionProbe])
    else if env.llamaSpawn = false then
      (Except.error Error.IOFailed, [Action.llamaVersionProbe, Action.llamaLaunch])
    else
      (Except.ok ExecKind.process, [Action.llamaVersionProbe, Action.llamaLaunch])
  else if env.dockerVersion then
    if env.createSpawn = false then
      (Except.error Error.IOFailed,
        [Action.llamaVersionProbe, Action.dockerVersionProbe, Action.dockerCreate])
    else
      match env.createIdLine with
      | none =>
        (Except.error Error.IOFailed,
          [Action.llamaVersionProbe, Action.dockerVersionProbe, Action.dockerCreate])
      | some none =>
        (Except.error (Error.DockerFailed "no container id returned by docker"),
          [Action.llamaVersionProbe, Action.dockerVersionProbe, Action.dockerCreate])
      | some (some id) =>
        if env.waitRead = false then
          (Except.error Error.IOFailed,
            [Action.llamaVersionProbe, Action.dockerVersionProbe, Action.dockerCreate])
        else if env.waitSuccess = false then
          (Except.error (Error.DockerFailed "failed to create container"),
            [Action.llamaVersionProbe, Action.dockerVersionProbe, Action.dockerCreate])
        else if env.startRun = false then
          (Except.error Error.IOFailed,
            [Action.llamaVersionProbe, Action.dockerVersionProbe, Action.dockerCreate,
             Action.dockerStart])
        else if env.logsSpawn = false then
          (Except.error Error.IOFailed,
            [Action.llamaVersionProbe, Action.dockerVersionProbe, Action.dockerCreate,
             Action.dockerStart, Action.dockerLogs])
        else
          (Except.ok (ExecKind.container id),
            [Action.llamaVersionProbe, Action.dockerVersionProbe, Action.dockerCreate,
             Action.dockerStart, Action.dockerLogs])
  else
    (Except.error Error.NoExecutorAvailable,
      [Action.llamaVersionProbe, Action.dockerVersionProbe])

/-- The `check_health` loop of `Reason::boot` (src/src/lib.rs lines
277-292) over a stream of per-second probe outcomes (`health i = none`:
the GET failed and is ignored; `some b`: a response whose status is
success iff `b`), with fuel bounding how many iterations we observe:
`none` means the loop is still running. Its only exit is `return true`. -/
def checkHealth (health : Nat → Option Bool) : Nat → Option Bool
  | 0 => none
  | n + 1 =>
    match health 0 with
    | some true => some true
    | _ => checkHealth (fun k => health (k + 1)) n

/-- `Reason::boot` end to end (selection phase, then the readiness poll and
the final `if check_health.await { ... } Err(ExecutorFailed(...))`,
src/src/lib.rs lines 94-306): `none` means the operation has not resolved
within `fuel` poll iterations. -/
def bootModel (env : BootEnv) (health : Nat → Option Bool) (fuel : Nat) :
    Option (Except Error ExecKind) :=
  match (bootSelect env).1 with
  | Except.error e => some (Except.error e)
  | Except.ok k =>
    match checkHealth health fuel with
    | none => none
    | some true => some (Except.ok k)
    | some false =>
      some (Except.error (Error.ExecutorFailed "llama-server exited unexpectedly"))

/-! ## Streamed line parsing (`Reason::complete`, src/src/lib.rs 385-511)

The JSON deserialization itself is performed by the external serde_json
library (out of scope per the spec, "used, not reimplemented"); we model it
by an executable JSON reader for the value fragment the payload shapes
use, and derived decoders that mirror the `#[derive(Deserialize)]` shapes
`Data`/`Choice`/`Delta`/`ToolCall`/`Function`/`FunctionUpdate` (untagged
enums try their variants in declaration order; unknown object fields are
ignored; missing fields fail). -/

/-- The opening-brace character, `0x7B`. -/
def lbrace : Char := Char.ofNat 123

/-- The closing-brace character, `0x7D`. -/
def rbrace : Char := Char.ofNat 125

/-- A JSON value. Numbers keep their raw text: no decoder below reads a
number, so their numeric value is irrelevant. -/
inductive Json
  | null
  | bool (b : Bool)
  | num (raw : String)
  | str (s : String)
  | arr (items : List Json)
  | obj (fields : List (String × Json))

/-- JSON whitespace. -/
def isWs (c : Char) : Bool :=
  c = ' ' || c = '\n' || c = '\t' || c = '\r'

/-- Drop leading JSON whitespace. -/
def skipWs : List Char → List Char
  | [] => []
  | c :: rest => if isWs c then skipWs rest else c :: rest

/-- Value of a hexadecimal digit. -/
def hexVal (c : Char) : Option Nat :=
  if '0' ≤ c ∧ c ≤ '9' then some (c.toNat - '0'.toNat)
  else if 'a' ≤ c ∧ c ≤ 'f' then some (c.toNat - 'a'.toNat + 10)
  else if 'A' ≤ c ∧ c ≤ 'F' then some (c.toNat - 'A'.toNat + 10)
  else none

/-- Read a JSON string body (after the opening quote), handling the
escape sequences, up to and including the closing quote; returns the
decoded string and the remaining input. -/
def parseStrBody : Nat → List Char → Option (String × List Char)
  | 0, _ => none
  | _ + 1, [] => none
  | fuel + 1, c :: rest =>
    if c = '\"' then some ("", rest)
    else if c = '\\' then
      match rest with
      | [] => none
      | e :: rest2 =>
        let esc : Option (Char × List Char) :=
          if e = '\"' then some ('\"', rest2)
          else if e = '\\' then some ('\\', rest2)
          else if e = '/' then some ('/', rest2)
          else if e = 'n' then some ('\n', rest2)
          else if e = 't' then some ('\t', rest2)
          else if e = 'r' then some ('\r', rest2)
          else if e = 'b' then some (Char.ofNat 8, rest2)
          else if e = 'f' then some (Char.ofNat 12, rest2)
          else if e = 'u' then
            match rest2 with
            | h1 :: h2 :: h3 :: h4 :: rest3 =>
              match hexVal h1, hexVal h2, hexVal h3, hexVal h4 with
              | some v1, some v2, some v3, some v4 =>
                some (Char.ofNat (((v1 * 16 + v2) * 16 + v3) * 16 + v4), rest3)
              | _, _, _, _ => none
            | _ => none
          else none
        match esc with
        | none => none
        | some (ch, rest3) =>
          match parseStrBody fuel rest3 with
          | none => none
          | some (s, rest4) => some (String.mk (ch :: s.data), rest4)
    else
      match parseStrBody fuel rest with
      | none => none
      | some (s, rest2) => some (String.mk (c :: s.data), rest2)

/-- Is `c` a character that may appear in a JSON number token? -/
def isNumChar (c : Char) : Bool :=
  c.isDigit || c = '-' || c = '+' || c = '.' || c = 'e' || c = 'E'

/-- Read a JSON number token (kept as raw text). -/
def parseNum (input : List Char) : Option (Json × List Char) :=
  let tok := input.takeWhile isNumChar
  if tok.isEmpty then none
  else some (Json.num (String.mk tok), input.dropWhile isNumChar)

mutual

/-- Read one JSON value and return the remaining input. -/
def parseJson : Nat → List Char → Option (Json × List Char)
  | 0, _ => none
  | fuel + 1, input =>
    match skipWs input with
    | [] => none
    | c :: rest =>
      if c = '\"' then
        match parseStrBody (fuel + 1) rest with
        | some (s, r) => some (Json.str s, r)
        | none => none
      else if c = lbrace then
        match skipWs rest with
        | [] => none
        | d :: r2 =>
          if d = rbrace then some (Json.obj [], r2)
          else
            match parseMembers fuel (d :: r2) with
            | some (ms, r3) => some (Json.obj ms, r3)
            | none => none
      else if c = '[' then
        match skipWs rest with
        | [] => none
        | d :: r2 =>
          if d = ']' then some (Json.arr [], r2)
          else
            match parseItems fuel (d :: r2) with
            | some (xs, r3) => some (Json.arr xs, r3)
            | none => none
      else if c = 't' then
        match rest with
        | 'r' :: 'u' :: 'e' :: r => some (Json.bool true, r)
        | _ => none
      else if c = 'f' then
        match rest with
        | 'a' :: 'l' :: 's' :: 'e' :: r => some (Json.bool false, r)
        | _ => none
      else if c = 'n' then
        match rest with
        | 'u' :: 'l' :: 'l' :: r => some (Json.null, r)
        | _ => none
      else if c = '-' || c.isDigit then parseNum (c :: rest)
      else none

/-- Read the comma-separated items of a non-empty JSON array, up to and
including the closing bracket. -/
def parseItems : Nat → List Char → Option (List Json × List Char)
  | 0, _ => none
  | fuel + 1, input =>
    match parseJson fuel input with
    | none => none
    | some (x, r) =>
      match skipWs r with
      | [] => none
      | c :: r2 =>
        if c = ',' then
          match parseItems fuel r2 with
          | some (xs, r3) => some (x :: xs, r3)
          | none => none
        else if c = ']' then some ([x], r2)
        else none

/-- Read the comma-separated members of a non-empty JSON object, up to and
including the closing brace. -/
def parseMembers : Nat → List Char → Option (List (String × Json) × List Char)
  | 0, _ => none
  | fuel + 1, input =>
    match skipWs input with
    | [] => none
    | c :: r =>
      if c = '\"' then
        match parseStrBody (fuel + 1) r with
        | none => none
        | some (k, r2) =>
          match skipWs r2 with
          | [] => none
          | d :: r3 =>
            if d = ':' then
              match parseJson fuel r3 with
              | none => none
              | some (v, r4) =>
                match skipWs r4 with
                | [] => none
                | e :: r5 =>
                  if e = ',' then
                    match parseMembers fuel r5 with
                    | some (ms, r6) => some ((k, v) :: ms, r6)
                    | none => none
                  else if e = rbrace then some ([(k, v)], r5)
                  else none
            else none
      else none

end

/-- `serde_json::from_slice` on a whole buffer: the value must consume the
input up to trailing whitespace. -/
def parseTop (input : List Char) : Option Json :=
  match parseJson (input.length + 1) input with
  | none => none
  | some (j, rest) => if (skipWs rest).isEmpty then some j else none

/-- First field of an object with the given key. -/
def jLookup : List (String × Json) → String → Option Json
  | [], _ => none
  | (k, v) :: rest, key => if k = key then some v else jLookup rest key

/-- Decode a JSON string. -/
def asStr : Json → Option String
  | Json.str s => some s
  | _ => none

/-- Decode a JSON object's fields. -/
def asObj : Json → Option (List (String × Json))
  | Json.obj fields => some fields
  | _ => none

/-- Decode a JSON array's items. -/
def asArr : Json → Option (List Json)
  | Json.arr items => some items
  | _ => none

/-- Untagged variant `Delta::Text { content: String }`. -/
def decodeText (j : Json) : Option Delta :=
  match asObj j with
  | none => none
  | some fields =>
    match jLookup fields "content" with
    | none => none
    | some v =>
      match asStr v with
      | none => none
      | some s => some (Delta.Text s)

/-- Untagged variant `ToolCall::New { id: Id, function: Function }` with
`Function { name: String, arguments: String }`. -/
def decodeNew (fields : List (String × Json)) : Option ToolCallDelta :=
  match (jLookup fields "id").bind asStr with
  | none => none
  | some id =>
    match (jLookup fields "function").bind asObj with
    | none => none
    | some ff =>
      match (jLookup ff "name").bind asStr, (jLookup ff "arguments").bind asStr with
      | some name, some args => some (ToolCallDelta.New id name args)
      | _, _ => none

/-- Untagged variant `ToolCall::Update { function: FunctionUpdate }` with
`FunctionUpdate { arguments: String }`. -/
def decodeUpdate (fields : List (String × Json)) : Option ToolCallDelta :=
  match (jLookup fields "function").bind asObj with
  | none => none
  | some ff =>
    match (jLookup ff "arguments").bind asStr with
    | none => none
    | some args => some (ToolCallDelta.Update args)

/-- Untagged `ToolCall`: try `New` first, then `Update`. -/
def decodeToolCall (j : Json) : Option ToolCallDelta :=
  match asObj j with
  | none => none
  | some fields =>
    match decodeNew fields with
    | some t => some t
    | none => decodeUpdate fields

/-- Untagged variant `Delta::Call { tool_calls: [ToolCall; 1] }`: the
array must have exactly one element. -/
def decodeCallDelta (j : Json) : Option Delta :=
  match asObj j with
  | none => none
  | some fields =>
    match (jLookup fields "tool_calls").bind asArr with
    | some [x] =>
      match decodeToolCall x with
      | some t => some (Delta.Call t)
      | none => none
    | _ => none

/-- Untagged `Delta`: try `Text` first, then `Call`. -/
def decodeDelta (j : Json) : Option Delta :=
  match decodeText j with
  | some d => some d
  | none => decodeCallDelta j

/-- `Choice { delta: Delta }`. -/
def decodeChoice (j : Json) : Option Delta :=
  match asObj j with
  | none => none
  | some fields =>
    match jLookup fields "delta" with
    | none => none
    | some v => decodeDelta v

/-- Traverse a decoder over a list; any failure fails the whole decode. -/
def mapOption (f : Json → Option Delta) : List Json → Option (List Delta)
  | [] => some []
  | x :: xs =>
    match f x with
    | none => none
    | some y =>
      match mapOption f xs with
      | none => none
      | some ys => some (y :: ys)

/-- `Data { choices: Vec<Choice> }`, deserialized from raw line bytes:
`serde_json::from_slice::<Data>(bytes)`. -/
def parseData (bytes : List Char) : Option (List Delta) :=
  match parseTop bytes with
  | none => none
  | some j =>
    match asObj j with
    | none => none
    | some fields =>
      match (jLookup fields "choices").bind asArr with
      | none => none
      | some xs => mapOption decodeChoice xs

/-- Processing of one complete (nonempty) line of the streamed response
body (`Reason::complete`, src/src/lib.rs lines 385-511): a line shorter
than the 5-byte `data:` prefix length is skipped; otherwise the first 5
bytes are stripped (without checking their content) and the remainder is
deserialized as a `Data` payload — a failed parse or an empty `choices`
list skips the line; otherwise the first choice's delta goes to the mode
classifier. -/
def processLine (st : ClsState) (now : Nat) (line : List Char) : ClsState × List Event :=
  if line.length < 5 then (st, [])
  else
    match parseData (line.drop 5) with
    | none => (st, [])
    | some deltas =>
      match deltas.head? with
      | none => (st, [])
      | some d => classifyDelta st now d

/-! ## Incremental line framing (`Reason::complete`, src/src/lib.rs 372-385, 513)

The per-chunk step is generic in the per-line processor `step : σ → List
Char → σ × List Event` so that the framing lemmas do not depend on the
payload parser; the completion engine instantiates `σ` with the classifier
state plus a ghost line counter indexing a time schedule. -/

/-- Helper for `splitNL`: first newline-separated segment of the list and
the remaining segments. -/
def splitNLp : List Char → List Char × List (List Char)
  | [] => ([], [])
  | c :: rest =>
    if c = '\n' then ([], (splitNLp rest).1 :: (splitNLp rest).2)
    else (c :: (splitNLp rest).1, (splitNLp rest).2)

/-- Rust `buffer.split(|byte| *byte == 0x0A)`: the newline-separated
segments of the buffer (always at least one, possibly empty, segment). -/
def splitNL (l : List Char) : List (List Char) :=
  (splitNLp l).1 :: (splitNLp l).2

/-- Run the per-line processor over a list of complete lines, in order,
threading its state and concatenating emitted events. -/
def runLines {σ : Type} (step : σ → List Char → σ × List Event) :
    σ → List (List Char) → σ × List Event
  | s, [] => (s, [])
  | s, l :: ls =>
    ((runLines step (step s l).1 ls).1,
      (step s l).2 ++ (runLines step (step s l).1 ls).2)

/-- One iteration body of the `while let Some(chunk)` loop of
`Reason::complete` applied to the extended buffer (src/src/lib.rs lines
372-385 and 513): split the buffer on the newline byte, filter out empty
segments, keep the trailing segment as the new buffer unless the buffer
ends exactly on a newline (then the retained buffer is empty and every
nonempty segment is a complete line), and process all complete lines. -/
def chunkCore {σ : Type} (step : σ → List Char → σ × List Event) (s : σ)
    (buffer : List Char) : (σ × List Char) × List Event :=
  if buffer.getLast? = some '\n' then
    (((runLines step s ((splitNL buffer).filter fun x => !x.isEmpty)).1, []),
      (runLines step s ((splitNL buffer).filter fun x => !x.isEmpty)).2)
  else
    (((runLines step s (((splitNL buffer).filter fun x => !x.isEmpty)).dropLast).1,
        ((splitNL buffer).filter fun x => !x.isEmpty).getLast?.getD []),
      (runLines step s (((splitNL buffer).filter fun x => !x.isEmpty)).dropLast).2)

/-- One chunk arrival: `buffer.extend(chunk)` followed by the line-framing
iteration body. -/
def chunkStep {σ : Type} (step : σ → List Char → σ × List Event)
    (st : σ × List Char) (chunk : List Char) : (σ × List Char) × List Event :=
  chunkCore step st.1 (st.2 ++ chunk)

/-- Deliver a list of chunks one after the other, as the transport would. -/
def runChunks {σ : Type} (step : σ → List Char → σ × List Event) :
    σ × List Char → List (List Char) → (σ × List Char) × List Event
  | st, [] => (st, [])
  | st, c :: cs =>
    ((runChunks step (chunkStep step st c).1 cs).1,
      (chunkStep step st c).2 ++ (runChunks step (chunkStep step st c).1 cs).2)

/-- Reference byte-at-a-time semantics of the framing: a newline byte
completes the buffered line (empty lines are skipped), any other byte is
appended to the buffer. -/
def runBytes {σ : Type} (step : σ → List Char → σ × List Event) :
    σ × List Char → List Char → (σ × List Char) × List Event
  | st, [] => (st, [])
  | (s, buf), c :: rest =>
    if c = '\n' then
      if buf.isEmpty then runBytes step (s, []) rest
      else
        ((runBytes step ((step s buf).1, []) rest).1,
          (step s buf).2 ++ (runBytes step ((step s buf).1, []) rest).2)
    else runBytes step (s, buf ++ [c]) rest

/-- Completing one nonempty line for the peel lemma: an empty buffered
line is skipped, a nonempty one is processed. -/
def feedLine {σ : Type} (step : σ → List Char → σ × List Event) (s : σ)
    (buf : List Char) : σ × List Event :=
  if buf.isEmpty then (s, []) else step s buf

/-- The completion engine's per-line processor: classifier state plus a
ghost counter of processed lines, with `times` assigning each processed
line its observation time. -/
def lineStepT (times : Nat → Nat) (st : ClsState × Nat) (line : List Char) :
    (ClsState × Nat) × List Event :=
  ((( processLine st.1 (times st.2) line).1, st.2 + 1),
    (processLine st.1 (times st.2) line).2)

/-- The streaming completion engine's event output over a list of response
body chunks, starting from an empty buffer and mode `none`
(`mode_started_at` at ghost time `t0`). -/
def completeRun (times : Nat → Nat) (t0 : Nat) (chunks : List (List Char)) :
    List Event :=
  (runChunks (lineStepT times) ((⟨none, t0⟩, 0), []) chunks).2

theorem listStartsWith_iff (p l : List Char) :
    listStartsWith p l = true ↔ ∃ r, l = p ++ r := by
  induction p generalizing l with
  | nil => simp [listStartsWith]
  | cons a as ih =>
    cases l with
    | nil => simp [listStartsWith]
    | cons b bs =>
      simp only [listStartsWith, Bool.and_eq_true, decide_eq_true_eq, ih]
      constructor
      · rintro ⟨hab, r, hr⟩
        exact ⟨r, by simp [hab, hr]⟩
      · rintro ⟨r, hr⟩
        rw [List.cons_append] at hr
        injection hr with h1 h2
        exact ⟨h1.symm, r, h2⟩

theorem listContains_iff (p l : List Char) :
    listContains p l = true ↔ ∃ x y, l = x ++ p ++ y := by
  induction l with
  | nil =>
    simp only [listContains, List.isEmpty_iff]
    constructor
    · rintro rfl; exact ⟨[], [], rfl⟩
    · rintro ⟨x, y, hxy⟩
      rcases List.append_eq_nil.mp (List.append_eq_nil.mp hxy.symm).1 with ⟨-, h⟩
      exact h
  | cons c rest ih =>
    simp only [listContains, Bool.or_eq_true, listStartsWith_iff, ih]
    constructor
    · rintro (⟨r, hr⟩ | ⟨x, y, hxy⟩)
      · exact ⟨[], r, by simp [hr]⟩
      · exact ⟨c :: x, y, by simp [hxy]⟩
    · rintro ⟨x, y, hxy⟩
      cases x with
      | nil => exact Or.inl ⟨y, by simpa using hxy⟩
      | cons x0 xs =>
        right
        injection hxy with h1 h2
        exact ⟨xs, y, h2⟩

theorem strContains_iff (s pat : String) :
    strContains s pat = true ↔ ∃ x y, s.data = x ++ pat.data ++ y :=
  listContains_iff pat.data s.data

theorem string_append_empty (s : String) : s ++ "" = s := by
  apply String.ext
  simp

theorem string_append_assoc (a b c : String) : a ++ b ++ c = a ++ (b ++ c) := by
  apply String.ext
  simp


theorem splitNLp_cons_nl (l : List Char) :
    splitNLp ('\n' :: l) = ([], (splitNLp l).1 :: (splitNLp l).2) := by
  rw [splitNLp, if_pos rfl]

theorem splitNLp_cons_ne (c : Char) (l : List Char) (hc : c ≠ '\n') :
    splitNLp (c :: l) = (c :: (splitNLp l).1, (splitNLp l).2) := by
  rw [splitNLp, if_neg hc]

theorem splitNLp_no_nl (l : List Char) (h : '\n' ∉ l) : splitNLp l = (l, []) := by
  induction l with
  | nil => rfl
  | cons c rest ih =>
    have hc : c ≠ '\n' := fun hc => h (hc ▸ List.mem_cons_self c rest)
    have hr : '\n' ∉ rest := fun hr => h (List.mem_cons_of_mem c hr)
    rw [splitNLp_cons_ne c rest hc, ih hr]

theorem splitNLp_append_nl (buf rest : List Char) (h : '\n' ∉ buf) :
    splitNLp (buf ++ '\n' :: rest) = (buf, splitNL rest) := by
  induction buf with
  | nil => simp [splitNLp_cons_nl, splitNL]
  | cons c b ih =>
    have hc : c ≠ '\n' := fun hc => h (hc ▸ List.mem_cons_self c b)
    have hb : '\n' ∉ b := fun hb => h (List.mem_cons_of_mem c hb)
    rw [List.cons_append, splitNLp_cons_ne c _ hc, ih hb]

theorem splitNL_append_nl (buf rest : List Char) (h : '\n' ∉ buf) :
    splitNL (buf ++ '\n' :: rest) = buf :: splitNL rest := by
  rw [splitNL, splitNLp_append_nl buf rest h]

theorem splitNL_no_nl (l : List Char) (h : '\n' ∉ l) : splitNL l = [l] := by
  rw [splitNL, splitNLp_no_nl l h]

theorem getLast?_ne_nl_of_not_mem (buf : List Char) (h : '\n' ∉ buf) :
    buf.getLast? ≠ some '\n' := by
  intro hc
  exact h (List.mem_of_mem_getLast? hc)

theorem splitNL_getLast_nonempty :
    ∀ l : List Char, l ≠ [] → l.getLast? ≠ some '\n' →
      ∃ t, (splitNL l).getLast? = some t ∧ t ≠ [] := by
  intro l
  induction l with
  | nil => intro h0; exact absurd rfl h0
  | cons a r ih =>
    intro _ h1
    cases r with
    | nil =>
      have ha : a ≠ '\n' := by
        intro hc
        exact h1 (by simp [hc, List.getLast?])
      refine ⟨[a], ?_, by simp⟩
      rw [splitNL, splitNLp_cons_ne a [] ha]
      rfl
    | cons b r2 =>
      have h1' : (b :: r2).getLast? ≠ some '\n' := by
        rwa [List.getLast?_cons_cons] at h1
      obtain ⟨t, ht, htne⟩ := ih (by simp) h1'
      by_cases ha : a = '\n'
      · refine ⟨t, ?_, htne⟩
        subst ha
        rw [splitNL, splitNLp_cons_nl (b :: r2)]
        rw [show ((([] : List Char), (splitNLp (b :: r2)).1 :: (splitNLp (b :: r2)).2).1 ::
              (([] : List Char), (splitNLp (b :: r2)).1 :: (splitNLp (b :: r2)).2).2)
            = [] :: (splitNLp (b :: r2)).1 :: (splitNLp (b :: r2)).2 from rfl]
        rw [List.getLast?_cons_cons]
        exact ht
      · refine ?_
        rw [splitNL, splitNLp_cons_ne a (b :: r2) ha]
        cases htl : (splitNLp (b :: r2)).2 with
        | nil =>
          refine ⟨a :: (splitNLp (b :: r2)).1, ?_, by simp⟩
          simp [List.getLast?]
        | cons x t2 =>
          refine ⟨t, ?_, htne⟩
          rw [List.getLast?_cons_cons]
          rw [splitNL, htl, List.getLast?_cons_cons] at ht
          exact ht


theorem chunkCore_no_nl {σ : Type} (step : σ → List Char → σ × List Event)
    (s : σ) (buf : List Char) (h : '\n' ∉ buf) :
    chunkCore step s buf = ((s, buf), []) := by
  rw [chunkCore, if_neg (getLast?_ne_nl_of_not_mem buf h), splitNL_no_nl buf h]
  cases buf with
  | nil => rfl
  | cons c bs => rfl

theorem chunkCore_peel {σ : Type} (step : σ → List Char → σ × List Event)
    (s : σ) (buf rest : List Char) (hb : '\n' ∉ buf) :
    chunkCore step s (buf ++ '\n' :: rest)
      = ((chunkCore step (feedLine step s buf).1 rest).1,
         (feedLine step s buf).2 ++ (chunkCore step (feedLine step s buf).1 rest).2) := by
  have hsplit : splitNL (buf ++ '\n' :: rest) = buf :: splitNL rest :=
    splitNL_append_nl buf rest hb
  have hlast : (buf ++ '\n' :: rest).getLast? = ('\n' :: rest).getLast? :=
    List.getLast?_append_cons buf '\n' rest
  cases rest with
  | nil =>
    rw [chunkCore, hsplit, if_pos (by rw [hlast]; rfl)]
    cases buf with
    | nil => rfl
    | cons c bs => rfl
  | cons x r2 =>
    rw [List.getLast?_cons_cons] at hlast
    by_cases hend : (x :: r2).getLast? = some '\n'
    · simp only [chunkCore, hsplit, hlast]
      simp only [if_pos hend]
      cases buf with
      | nil =>
        simp [runLines, feedLine, List.filter_cons]
      | cons c bs =>
        simp only [List.filter_cons]
        simp only [List.isEmpty_cons, Bool.not_false, if_pos rfl]
        simp [runLines, feedLine]
    · obtain ⟨t, ht, htne⟩ := splitNL_getLast_nonempty (x :: r2) (by simp) hend
      have hSne : splitNL (x :: r2) ≠ [] := by rw [splitNL]; simp
      have hteq : t = (splitNL (x :: r2)).getLast hSne := by
        have hg := List.getLast?_eq_getLast (splitNL (x :: r2)) hSne
        rw [ht] at hg
        injection hg
      have hS : (splitNL (x :: r2)).dropLast ++ [t] = splitNL (x :: r2) := by
        rw [hteq]
        exact List.dropLast_append_getLast hSne
      have hfilterS : (splitNL (x :: r2)).filter (fun y => !y.isEmpty)
          = ((splitNL (x :: r2)).dropLast.filter fun y => !y.isEmpty) ++ [t] := by
        conv_lhs => rw [← hS]
        rw [List.filter_append]
        congr 1
        simp [List.filter_cons, htne]
      have hfnil : ∀ S : List (List Char),
          ([] :: S).filter (fun y => !y.isEmpty) = S.filter fun y => !y.isEmpty := by
        intro S
        simp [List.filter_cons]
      have hfcons : ∀ (c : Char) (bs : List Char) (S : List (List Char)),
          ((c :: bs) :: S).filter (fun y => !y.isEmpty)
            = (c :: bs) :: S.filter fun y => !y.isEmpty := by
        intro c bs S
        simp [List.filter_cons]
      simp only [chunkCore, hsplit, hlast]
      simp only [if_neg hend]
      cases buf with
      | nil =>
        rw [hfnil, hfilterS]
        simp [feedLine]
      | cons c bs =>
        rw [hfcons, hfilterS, ← List.cons_append, List.dropLast_concat,
          List.getLast?_concat]
        simp [runLines, feedLine]


theorem chunkCore_eq_runBytes {σ : Type} (step : σ → List Char → σ × List Event) :
    ∀ (c : List Char) (s : σ) (buf : List Char), '\n' ∉ buf →
      chunkCore step s (buf ++ c) = runBytes step (s, buf) c := by
  intro c
  induction c with
  | nil =>
    intro s buf hb
    rw [List.append_nil, chunkCore_no_nl step s buf hb]
    rfl
  | cons c0 rest ih =>
    intro s buf hb
    by_cases hc : c0 = '\n'
    · subst hc
      rw [chunkCore_peel step s buf rest hb, runBytes, if_pos rfl]
      cases buf with
      | nil =>
        have h2 : chunkCore step s rest = runBytes step (s, []) rest := ih s [] (by simp)
        simp [feedLine, h2]
      | cons b0 bs =>
        have h2 : chunkCore step (step s (b0 :: bs)).1 rest
            = runBytes step ((step s (b0 :: bs)).1, []) rest :=
          ih (step s (b0 :: bs)).1 [] (by simp)
        simp [feedLine, h2]
    · have hmem : '\n' ∉ buf ++ [c0] := by
        intro hmem
        rcases List.mem_append.mp hmem with h | h
        · exact hb h
        · simp at h
          exact hc h.symm
      rw [show buf ++ c0 :: rest = (buf ++ [c0]) ++ rest from by
            rw [List.append_cons]]
      rw [ih s (buf ++ [c0]) hmem, runBytes, if_neg hc]

theorem runBytes_no_nl {σ : Type} (step : σ → List Char → σ × List Event) :
    ∀ (c : List Char) (st : σ × List Char), '\n' ∉ st.2 →
      '\n' ∉ (runBytes step st c).1.2 := by
  intro c
  induction c with
  | nil =>
    intro st hb
    obtain ⟨s, buf⟩ := st
    simpa [runBytes] using hb
  | cons c0 rest ih =>
    intro st hb
    obtain ⟨s, buf⟩ := st
    by_cases hc : c0 = '\n'
    · subst hc
      rw [runBytes, if_pos rfl]
      by_cases hbe : buf.isEmpty
      · rw [if_pos hbe]
        exact ih (s, []) (by simp)
      · rw [if_neg hbe]
        exact ih ((step s buf).1, []) (by simp)
    · rw [runBytes, if_neg hc]
      refine ih (s, buf ++ [c0]) ?_
      intro hmem
      rcases List.mem_append.mp hmem with h | h
      · exact hb h
      · simp at h
        exact hc h.symm

theorem runBytes_append {σ : Type} (step : σ → List Char → σ × List Event) :
    ∀ (a b : List Char) (st : σ × List Char),
      runBytes step st (a ++ b)
        = ((runBytes step (runBytes step st a).1 b).1,
           (runBytes step st a).2 ++ (runBytes step (runBytes step st a).1 b).2) := by
  intro a
  induction a with
  | nil =>
    intro b st
    obtain ⟨s, buf⟩ := st
    simp [runBytes]
  | cons c0 rest ih =>
    intro b st
    obtain ⟨s, buf⟩ := st
    by_cases hc : c0 = '\n'
    · subst hc
      rw [List.cons_append, runBytes, if_pos rfl, runBytes, if_pos rfl]
      by_cases hbe : buf.isEmpty
      · rw [if_pos hbe, if_pos hbe]
        exact ih b (s, [])
      · rw [if_neg hbe, if_neg hbe]
        rw [ih b ((step s buf).1, [])]
        simp [List.append_assoc]
    · rw [List.cons_append, runBytes, if_neg hc, runBytes, if_neg hc]
      exact ih b (s, buf ++ [c0])

theorem runChunks_eq_runBytes {σ : Type} (step : σ → List Char → σ × List Event) :
    ∀ (chunks : List (List Char)) (st : σ × List Char), '\n' ∉ st.2 →
      runChunks step st chunks = runBytes step st chunks.flatten := by
  intro chunks
  induction chunks with
  | nil =>
    intro st hb
    obtain ⟨s, buf⟩ := st
    rfl
  | cons c cs ih =>
    intro st hb
    have hstep : chunkStep step st c = runBytes step st c := by
      rw [chunkStep]
      exact chunkCore_eq_runBytes step c st.1 st.2 hb
    rw [runChunks, hstep, List.flatten_cons, runBytes_append step c cs.flatten st,
      ih (runBytes step st c).1 (runBytes_no_nl step c st hb)]

theorem flatten_map_singleton (bytes : List Char) :
    (bytes.map fun b => [b]).flatten = bytes := by
  induction bytes with
  | nil => rfl
  | cons b rest ih => simp [ih]


/-- C1 counterexample: feeding the text-delta sequence
`["<think>", "a", "</think>", "b"]` to the mode classifier from mode `none`
(all deltas observed at ghost time 0) emits exactly
`OutputAdded(Reasoning)`, `TextChanged("a")`, `TextChanged("b")` — no
`OutputAdded(Message)` event occurs anywhere in the emitted sequence, so
the claimed event sequence (with `OutputAdded(Message)` before
`TextChanged("b")`) is not what the code produces. -/
theorem c1_counterexample :
    (classifyAll ⟨none, 0⟩
        [(0, Delta.Text "<think>"), (0, Delta.Text "a"),
         (0, Delta.Text "</think>"), (0, Delta.Text "b")]).2
      = [Event.OutputAdded (Output.Reasoning ⟨"", 0⟩),
         Event.TextChanged "a" 0, Event.TextChanged "b" 0]
    ∧ (classifyAll ⟨none, 0⟩
        [(0, Delta.Text "<think>"), (0, Delta.Text "a"),
         (0, Delta.Text "</think>"), (0, Delta.Text "b")]).2
      ≠ [Event.OutputAdded (Output.Reasoning ⟨"", 0⟩),
         Event.TextChanged "a" 0,
         Event.OutputAdded (Output.Message ""),
         Event.TextChanged "b" 0]
    ∧ Event.OutputAdded (Output.Message "")
        ∉ (classifyAll ⟨none, 0⟩
            [(0, Delta.Text "<think>"), (0, Delta.Text "a"),
             (0, Delta.Text "</think>"), (0, Delta.Text "b")]).2 := by
  refine ⟨rfl, by decide, by decide⟩

/-- C1 (amended): for the text-delta sequence
`["<think>", "a", "</think>", "b"]` fed to the completion engine's mode
classifier starting in mode `none` (deltas observed at arbitrary ghost
times `a ≤ b`, `c ≤ d`), the emitted event sequence is exactly
`OutputAdded(Reasoning)`, `TextChanged("a")`, `TextChanged("b")`: the
reasoning-close delta switches the mode to Messaging but emits nothing,
and no `OutputAdded(Message)` event is emitted before `TextChanged("b")`. -/
theorem c1_mode_classification (t0 ta tb tc td : Nat) :
    classifyAll ⟨none, t0⟩
        [(ta, Delta.Text "<think>"), (tb, Delta.Text "a"),
         (tc, Delta.Text "</think>"), (td, Delta.Text "b")]
      = (⟨some Mode.messaging, tc⟩,
         [Event.OutputAdded (Output.Reasoning ⟨"", 0⟩),
          Event.TextChanged "a" (tb - ta), Event.TextChanged "b" (td - tc)]) := by
  rfl

theorem updateAll_argumentsChanged (prev : List Output) (cs : List Call)
    (id name acc : String) (ds : List (String × Nat)) :
    updateAll ⟨prev ++ [Output.ToolCalls (cs ++ [Call.Function id name acc])]⟩
        (ds.map fun p => Event.ArgumentsChanged p.1 p.2)
      = ⟨prev ++ [Output.ToolCalls
          (cs ++ [Call.Function id name (acc ++ concatAll (ds.map Prod.fst))])]⟩ := by
  induction ds generalizing acc with
  | nil => simp [updateAll, concatAll, string_append_empty]
  | cons p rest ih =>
    obtain ⟨d, t⟩ := p
    have step :
        Reply.update ⟨prev ++ [Output.ToolCalls (cs ++ [Call.Function id name acc])]⟩
            (Event.ArgumentsChanged d t)
          = ⟨prev ++ [Output.ToolCalls (cs ++ [Call.Function id name (acc ++ d)])]⟩ := by
      simp [Reply.update, List.getLast?_concat, List.dropLast_concat]
    calc updateAll ⟨prev ++ [Output.ToolCalls (cs ++ [Call.Function id name acc])]⟩
          (((d, t) :: rest).map fun p => Event.ArgumentsChanged p.1 p.2)
        = updateAll ⟨prev ++ [Output.ToolCalls (cs ++ [Call.Function id name (acc ++ d)])]⟩
            (rest.map fun p => Event.ArgumentsChanged p.1 p.2) := by
          simp only [List.map_cons, updateAll, List.foldl_cons, step]
      _ = ⟨prev ++ [Output.ToolCalls
            (cs ++ [Call.Function id name (acc ++ d ++ concatAll (rest.map Prod.fst))])]⟩ := ih _
      _ = ⟨prev ++ [Output.ToolCalls
            (cs ++ [Call.Function id name (acc ++ concatAll (((d, t) :: rest).map Prod.fst))])]⟩ := by
          simp [concatAll, string_append_assoc]

/-- C7: folding a `ToolCallAdded` event (initial arguments `a0`) followed
by `ArgumentsChanged` events with deltas `d1..dN` into a Reply whose last
output is a ToolCalls yields a final Call whose arguments equal the plain
concatenation `a0 ++ d1 ++ ... ++ dN`, with no separators inserted; in
particular the fragments `["{\"a\":", "1}"]` yield exactly `{"a":1}`. -/
theorem c7_arguments_concatenation (prev : List Output) (calls : List Call)
    (id name a0 : String) (ds : List (String × Nat)) :
    updateAll ⟨prev ++ [Output.ToolCalls calls]⟩
        (Event.ToolCallAdded id name a0 :: ds.map fun p => Event.ArgumentsChanged p.1 p.2)
      = ⟨prev ++ [Output.ToolCalls
          (calls ++ [Call.Function id name (a0 ++ concatAll (ds.map Prod.fst))])]⟩
    ∧ updateAll ⟨[Output.ToolCalls []]⟩
        [Event.ToolCallAdded "call_0" "f" "\x7b\"a\":",
         Event.ArgumentsChanged "1\x7d" 0]
      = ⟨[Output.ToolCalls [Call.Function "call_0" "f" "\x7b\"a\":1\x7d"]]⟩ := by
  constructor
  · have step :
        Reply.update ⟨prev ++ [Output.ToolCalls calls]⟩ (Event.ToolCallAdded id name a0)
          = ⟨prev ++ [Output.ToolCalls (calls ++ [Call.Function id name a0])]⟩ := by
      simp [Reply.update, List.getLast?_concat, List.dropLast_concat]
    calc updateAll ⟨prev ++ [Output.ToolCalls calls]⟩
          (Event.ToolCallAdded id name a0 :: ds.map fun p => Event.ArgumentsChanged p.1 p.2)
        = updateAll ⟨prev ++ [Output.ToolCalls (calls ++ [Call.Function id name a0])]⟩
            (ds.map fun p => Event.ArgumentsChanged p.1 p.2) := by
          simp only [updateAll, List.foldl_cons, step]
      _ = ⟨prev ++ [Output.ToolCalls
            (calls ++ [Call.Function id name (a0 ++ concatAll (ds.map Prod.fst))])]⟩ :=
          updateAll_argumentsChanged prev calls id name a0 ds
  · rfl

/-- C8: `Reply::update` is total and drops mismatched events: a
`TextChanged` when the outputs list is empty or ends in a ToolCalls, a
`ToolCallAdded` when the last output is not a ToolCalls, and an
`ArgumentsChanged` when the last output is not a ToolCalls or its call
list is empty, each leave the Reply unchanged. -/
theorem c8_update_mismatch_ignored (r : Reply) (delta : String) (dur : Nat)
    (id name args : String) :
    ((r.outputs.getLast? = none ∨ ∃ cs, r.outputs.getLast? = some (Output.ToolCalls cs)) →
      r.update (Event.TextChanged delta dur) = r)
    ∧ ((∀ cs, r.outputs.getLast? ≠ some (Output.ToolCalls cs)) →
      r.update (Event.ToolCallAdded id name args) = r)
    ∧ (((∀ cs, r.outputs.getLast? ≠ some (Output.ToolCalls cs)) ∨
        r.outputs.getLast? = some (Output.ToolCalls [])) →
      r.update (Event.ArgumentsChanged delta dur) = r) := by
  refine ⟨?_, ?_, ?_⟩
  · rintro (h | ⟨cs, h⟩) <;> simp [Reply.update, h]
  · intro h
    rcases hl : r.outputs.getLast? with _ | o
    · simp [Reply.update, hl]
    · cases o with
      | ToolCalls cs => exact absurd hl (h cs)
      | Reasoning rs => simp [Reply.update, hl]
      | Message t => simp [Reply.update, hl]
  · rintro (h | h)
    · rcases hl : r.outputs.getLast? with _ | o
      · simp [Reply.update, hl]
      · cases o with
        | ToolCalls cs => exact absurd hl (h cs)
        | Reasoning rs => simp [Reply.update, hl]
        | Message t => simp [Reply.update, hl]
    · simp [Reply.update, h]

/-- Witness for C8 at concrete inputs: on `⟨[ToolCalls []]⟩` a
`TextChanged` and an `ArgumentsChanged` are ignored, and on
`⟨[Message "m"]⟩` a `ToolCallAdded` is ignored. -/
theorem c8_update_mismatch_ignored_witness :
    Reply.update ⟨[Output.ToolCalls []]⟩ (Event.TextChanged "x" 1) = ⟨[Output.ToolCalls []]⟩
    ∧ Reply.update ⟨[Output.Message "m"]⟩ (Event.ToolCallAdded "i" "f" "a")
      = ⟨[Output.Message "m"]⟩
    ∧ Reply.update ⟨[Output.ToolCalls []]⟩ (Event.ArgumentsChanged "x" 1)
      = ⟨[Output.ToolCalls []]⟩ :=
  ⟨(c8_update_mismatch_ignored ⟨[Output.ToolCalls []]⟩ "x" 1 "i" "f" "a").1
      (Or.inr ⟨[], rfl⟩),
   (c8_update_mismatch_ignored ⟨[Output.Message "m"]⟩ "x" 1 "i" "f" "a").2.1
      (by intro cs h; cases h),
   (c8_update_mismatch_ignored ⟨[Output.ToolCalls []]⟩ "x" 1 "i" "f" "a").2.2
      (Or.inr rfl)⟩

/-- C9: once the classifier's mode is `ToolCalling` it never leaves it —
any delta keeps the mode at `ToolCalling` — and a text-content delta
(whatever its content, markers included) emits no event and leaves the
whole classifier state unchanged, so assistant text after a tool call is
silently dropped. -/
theorem c9_toolcalling_absorbing (st : ClsState) (now : Nat) (d : Delta)
    (h : st.mode = some Mode.toolCalling) :
    (classifyDelta st now d).1.mode = some Mode.toolCalling
    ∧ ∀ content, d = Delta.Text content → classifyDelta st now d = (st, []) := by
  obtain ⟨m, t⟩ := st
  cases h
  cases d with
  | Text content =>
    constructor
    · simp [classifyDelta]
    · intro c hc
      simp [classifyDelta]
  | Call tc =>
    constructor
    · cases tc <;> simp [classifyDelta]
    · intro c hc
      cases hc

/-- Witness for C9 at a concrete input: in mode `ToolCalling` (started at
time 3), the text delta `"<think>x</think>"` observed at time 7 emits
nothing, changes nothing, and the mode stays `ToolCalling`. -/
theorem c9_toolcalling_absorbing_witness :
    (classifyDelta ⟨some Mode.toolCalling, 3⟩ 7
        (Delta.Text "<think>x</think>")).1.mode = some Mode.toolCalling
    ∧ classifyDelta ⟨some Mode.toolCalling, 3⟩ 7 (Delta.Text "<think>x</think>")
      = (⟨some Mode.toolCalling, 3⟩, []) :=
  ⟨(c9_toolcalling_absorbing ⟨some Mode.toolCalling, 3⟩ 7
      (Delta.Text "<think>x</think>") rfl).1,
   (c9_toolcalling_absorbing ⟨some Mode.toolCalling, 3⟩ 7
      (Delta.Text "<think>x</think>") rfl).2 _ rfl⟩

/-- C10: `Backend::detect` maps any adapter-description string containing
the substring `"NVIDIA"` to Cuda; otherwise, containing `"AMD"`, to Rocm;
otherwise to Cpu (a string containing both yields Cuda); and
`Backend::uses_gpu` is true exactly for Cuda and Rocm. -/
theorem c10_backend_detect (s : String) :
    ((∃ x y, s.data = x ++ "NVIDIA".data ++ y) → Backend.detect s = Backend.Cuda)
    ∧ (¬ (∃ x y, s.data = x ++ "NVIDIA".data ++ y) →
        (∃ x y, s.data = x ++ "AMD".data ++ y) → Backend.detect s = Backend.Rocm)
    ∧ (¬ (∃ x y, s.data = x ++ "NVIDIA".data ++ y) →
        ¬ (∃ x y, s.data = x ++ "AMD".data ++ y) → Backend.detect s = Backend.Cpu)
    ∧ ∀ b, Backend.uses_gpu b = true ↔ (b = Backend.Cuda ∨ b = Backend.Rocm) := by
  refine ⟨?_, ?_, ?_, ?_⟩
  · intro h
    simp [Backend.detect, (strContains_iff s "NVIDIA").mpr h]
  · intro hn h
    have hn' : strContains s "NVIDIA" = false := by
      cases hc : strContains s "NVIDIA" with
      | false => rfl
      | true => exact absurd ((strContains_iff s "NVIDIA").mp hc) hn
    simp [Backend.detect, hn', (strContains_iff s "AMD").mpr h]
  · intro hn ha
    have hn' : strContains s "NVIDIA" = false := by
      cases hc : strContains s "NVIDIA" with
      | false => rfl
      | true => exact absurd ((strContains_iff s "NVIDIA").mp hc) hn
    have ha' : strContains s "AMD" = false := by
      cases hc : strContains s "AMD" with
      | false => rfl
      | true => exact absurd ((strContains_iff s "AMD").mp hc) ha
    simp [Backend.detect, hn', ha']
  · intro b
    cases b <;> simp [Backend.uses_gpu]

/-- Witness for C10 at concrete inputs: `"NVIDIA RTX"` → Cuda (also when
`"AMD"` occurs too: `"NVIDIA and AMD"` → Cuda), `"AMD Radeon"` → Rocm,
`"Intel Arc"` → Cpu, and `uses_gpu` is true for Cuda. -/
theorem c10_backend_detect_witness :
    Backend.detect "NVIDIA RTX" = Backend.Cuda
    ∧ Backend.detect "NVIDIA and AMD" = Backend.Cuda
    ∧ Backend.detect "AMD Radeon" = Backend.Rocm
    ∧ Backend.detect "Intel Arc" = Backend.Cpu
    ∧ (Backend.uses_gpu Backend.Cuda = true ↔
        (Backend.Cuda = Backend.Cuda ∨ Backend.Cuda = Backend.Rocm)) := by
  refine ⟨?_, ?_, ?_, ?_, ?_⟩
  · exact (c10_backend_detect "NVIDIA RTX").1 ⟨"".data, " RTX".data, rfl⟩
  · exact (c10_backend_detect "NVIDIA and AMD").1 ⟨"".data, " and AMD".data, rfl⟩
  · exact (c10_backend_detect "AMD Radeon").2.1
      (fun h => absurd ((strContains_iff "AMD Radeon" "NVIDIA").mpr h) (by decide))
      ⟨"".data, " Radeon".data, rfl⟩
  · exact (c10_backend_detect "Intel Arc").2.2.1
      (fun h => absurd ((strContains_iff "Intel Arc" "NVIDIA").mpr h) (by decide))
      (fun h => absurd ((strContains_iff "Intel Arc" "AMD").mpr h) (by decide))
  · exact (c10_backend_detect "x").2.2.2 Backend.Cuda

/-- C3 counterexample: the streaming parse never checks that a line begins
with the `data:` marker — it only requires at least 5 bytes and strips the
first 5 unconditionally. The complete line
`XXXXX{"choices":[{"delta":{"content":"b"}}]}` does not begin with
`data:`, yet it is not ignored: from the initial classifier state it emits
`OutputAdded(Message)` and `TextChanged("b")` and changes the mode. -/
theorem c3_counterexample :
    listStartsWith ("data:".data)
        (("XXXXX\x7b\"choices\":[\x7b\"delta\":\x7b\"content\":\"b\"\x7d\x7d]\x7d").data)
      = false
    ∧ processLine ⟨none, 0⟩ 0
        (("XXXXX\x7b\"choices\":[\x7b\"delta\":\x7b\"content\":\"b\"\x7d\x7d]\x7d").data)
      = (⟨some Mode.messaging, 0⟩,
         [Event.OutputAdded (Output.Message ""), Event.TextChanged "b" 0])
    ∧ ((⟨some Mode.messaging, 0⟩ : ClsState),
        [Event.OutputAdded (Output.Message ""), Event.TextChanged "b" 0])
      ≠ ((⟨none, 0⟩ : ClsState), ([] : List Event)) := by
  refine ⟨rfl, rfl, by decide⟩

/-- C3 (amended): in the streaming completion parse, a complete line is
ignored (no event emitted, mode state unchanged) when it is shorter than
the 5-byte `data:` prefix length, when the remainder after stripping the
first 5 bytes fails to deserialize as a data payload, or when the payload
has an empty `choices` list; the first 5 bytes themselves are stripped
without being compared against `data:`. -/
theorem c3_line_skipping (st : ClsState) (now : Nat) (line : List Char) :
    (line.length < 5 → processLine st now line = (st, []))
    ∧ (parseData (line.drop 5) = none → processLine st now line = (st, []))
    ∧ (parseData (line.drop 5) = some [] → processLine st now line = (st, [])) := by
  refine ⟨?_, ?_, ?_⟩
  · intro h
    simp [processLine, h]
  · intro h
    by_cases hl : line.length < 5
    · simp [processLine, hl]
    · simp [processLine, hl, h]
  · intro h
    by_cases hl : line.length < 5
    · simp [processLine, hl]
    · simp [processLine, hl, h, List.head?]

/-- Witness for C3 (amended) at concrete lines: a 3-byte line is ignored;
the terminator line `data: [DONE]` is ignored (its payload does not
parse); a payload with an empty `choices` list is ignored. -/
theorem c3_line_skipping_witness :
    processLine ⟨none, 0⟩ 0 ("abc".data) = (⟨none, 0⟩, [])
    ∧ processLine ⟨none, 0⟩ 0 ("data: [DONE]".data) = (⟨none, 0⟩, [])
    ∧ processLine ⟨none, 0⟩ 0 (("data:\x7b\"choices\":[]\x7d").data) = (⟨none, 0⟩, []) :=
  ⟨(c3_line_skipping ⟨none, 0⟩ 0 ("abc".data)).1 (by decide),
   (c3_line_skipping ⟨none, 0⟩ 0 ("data: [DONE]".data)).2.1 (by rfl),
   (c3_line_skipping ⟨none, 0⟩ 0 (("data:\x7b\"choices\":[]\x7d").data)).2.2 (by rfl)⟩

/-- C4: the incremental line-framing buffer of the completion engine
neither loses nor duplicates any complete line regardless of how the
transport splits the response bytes into chunks: delivering the same bytes
as 1-byte chunks and as a single chunk yields identical event sequences
(any fixed per-line observation-time schedule `times`). -/
theorem c4_chunking_invariance (times : Nat → Nat) (t0 : Nat) (bytes : List Char) :
    completeRun times t0 (bytes.map fun b => [b]) = completeRun times t0 [bytes] := by
  rw [completeRun, completeRun,
    runChunks_eq_runBytes (lineStepT times) (bytes.map fun b => [b])
      ((⟨none, t0⟩, 0), []) (by simp),
    runChunks_eq_runBytes (lineStepT times) [bytes]
      ((⟨none, t0⟩, 0), []) (by simp),
    flatten_map_singleton]
  simp

/-- C2 counterexample: for a well-formed host URL whose first readiness
attempt fails at the transport level (e.g. connection refused, or the
5-second per-attempt timeout), `Reason::connect` resolves to a
`RequestFailed` error instead of retrying — the `?` on `send()` propagates
the failure. -/
theorem c2_counterexample :
    connect true [Attempt.transportError] = some (Except.error Error.RequestFailed)
    ∧ some (Except.error Error.RequestFailed) ≠
        (none : Option (Except Error Unit))
    ∧ ∀ u : Unit, some (Except.error Error.RequestFailed) ≠
        some (Except.ok u) := by
  refine ⟨rfl, by simp, fun u => by simp⟩

/-- C2 (amended): `Reason::connect` retries its readiness probe (at
1-second intervals) only while attempts yield HTTP responses with non-2xx
status; it resolves successfully at the first 2xx response; but any
attempt that fails at the transport level (or exceeds the 5-second
per-attempt timeout) resolves `connect` to a `RequestFailed` error, as
does a malformed URL. -/
theorem c2_connect_retry (pre rest : List Attempt)
    (h : ∀ x ∈ pre, x = Attempt.response false) :
    connect true (pre ++ Attempt.response true :: rest) = some (Except.ok ())
    ∧ connect true (pre ++ Attempt.transportError :: rest)
      = some (Except.error Error.RequestFailed)
    ∧ connect false (pre ++ rest) = some (Except.error Error.RequestFailed) := by
  refine ⟨?_, ?_, rfl⟩
  · induction pre with
    | nil => rfl
    | cons a pre ih =>
      have ha := h a (List.mem_cons_self a pre)
      subst ha
      exact ih fun x hx => h x (List.mem_cons_of_mem _ hx)
  · induction pre with
    | nil => rfl
    | cons a pre ih =>
      have ha := h a (List.mem_cons_self a pre)
      subst ha
      exact ih fun x hx => h x (List.mem_cons_of_mem _ hx)

/-- Witness for C2 (amended) at a concrete input: one non-2xx attempt
followed by a 2xx attempt succeeds; a transport error after a non-2xx
attempt fails; a malformed URL fails. -/
theorem c2_connect_retry_witness :
    connect true [Attempt.response false, Attempt.response true]
      = some (Except.ok ())
    ∧ connect true [Attempt.response false, Attempt.transportError]
      = some (Except.error Error.RequestFailed)
    ∧ connect false [Attempt.response false] = some (Except.error Error.RequestFailed) := by
  have := c2_connect_retry [Attempt.response false] []
    (by intro x hx; simpa using hx)
  simpa using this

theorem checkHealth_ne_some_false (health : Nat → Option Bool) (fuel : Nat) :
    checkHealth health fuel ≠ some false := by
  induction fuel generalizing health with
  | zero => simp [checkHealth]
  | succ n ih =>
    simp only [checkHealth]
    cases h0 : health 0 with
    | none => exact ih _
    | some b =>
      cases b
      · exact ih _
      · simp

/-- C5: the boot fallback chain is deterministic in the two probe
outcomes — if the local llama-server version probe succeeds, a successful
boot yields the Process variant; if it fails and the docker version probe
succeeds, a successful boot yields a Container variant, never Process; if
both fail, boot resolves to `NoExecutorAvailable` without attempting any
Process or Container launch command. -/
theorem c5_boot_fallback (env : BootEnv) (health : Nat → Option Bool) (fuel : Nat) :
    (env.llamaVersion = true →
      ∀ k, bootModel env health fuel = some (Except.ok k) → k = ExecKind.process)
    ∧ (env.llamaVersion = false → env.dockerVersion = true →
      ∀ k, bootModel env health fuel = some (Except.ok k) →
        ∃ id, k = ExecKind.container id)
    ∧ (env.llamaVersion = false → env.dockerVersion = false →
      bootModel env health fuel = some (Except.error Error.NoExecutorAvailable)
      ∧ Action.llamaLaunch ∉ (bootSelect env).2
      ∧ Action.dockerCreate ∉ (bootSelect env).2
      ∧ Action.dockerStart ∉ (bootSelect env).2) := by
  refine ⟨?_, ?_, ?_⟩
  · intro hl k hk
    have hsel : (bootSelect env).1 = Except.ok ExecKind.process ∨
        ∃ e, (bootSelect env).1 = Except.error e := by
      simp only [bootSelect, hl, if_true]
      split
      · exact Or.inr ⟨_, rfl⟩
      · split
        · exact Or.inr ⟨_, rfl⟩
        · exact Or.inl rfl
    rcases hsel with hsel | ⟨e, hsel⟩
    · simp only [bootModel, hsel] at hk
      cases hch : checkHealth health fuel with
      | none => rw [hch] at hk; cases hk
      | some b =>
        cases b
        · rw [hch] at hk; cases hk
        · rw [hch] at hk
          injection hk with hk
          injection hk with hk
          exact hk.symm
    · simp only [bootModel, hsel] at hk
      cases hk
  · intro hl hd k hk
    have hsel : (∃ id, (bootSelect env).1 = Except.ok (ExecKind.container id)) ∨
        ∃ e, (bootSelect env).1 = Except.error e := by
      simp only [bootSelect, hl, hd, Bool.false_eq_true, if_false, if_true]
      split
      · exact Or.inr ⟨_, rfl⟩
      · split
        · exact Or.inr ⟨_, rfl⟩
        · exact Or.inr ⟨_, rfl⟩
        · split
          · exact Or.inr ⟨_, rfl⟩
          · split
            · exact Or.inr ⟨_, rfl⟩
            · split
              · exact Or.inr ⟨_, rfl⟩
              · split
                · exact Or.inr ⟨_, rfl⟩
                · exact Or.inl ⟨_, rfl⟩
    rcases hsel with ⟨id, hsel⟩ | ⟨e, hsel⟩
    · simp only [bootModel, hsel] at hk
      cases hch : checkHealth health fuel with
      | none => rw [hch] at hk; cases hk
      | some b =>
        cases b
        · rw [hch] at hk; cases hk
        · rw [hch] at hk
          injection hk with hk
          injection hk with hk
          exact ⟨id, hk.symm⟩
    · simp only [bootModel, hsel] at hk
      cases hk
  · intro hl hd
    have hsel : bootSelect env =
        (Except.error Error.NoExecutorAvailable,
          [Action.llamaVersionProbe, Action.dockerVersionProbe]) := by
      simp [bootSelect, hl, hd]
    refine ⟨?_, ?_, ?_, ?_⟩
    · simp [bootModel, hsel]
    · rw [hsel]; decide
    · rw [hsel]; decide
    · rw [hsel]; decide

/-- Witness for C5 at concrete environments: a healthy local-binary
environment boots to Process; an environment with no local binary but a
working docker boots to Container; an environment with neither resolves to
`NoExecutorAvailable`. -/
theorem c5_boot_fallback_witness :
    ExecKind.process = ExecKind.process
    ∧ (∃ id, ExecKind.container "cid" = ExecKind.container id)
    ∧ bootModel ⟨false, false, false, false, false, none, false, false, false, false⟩
        (fun _ => some true) 1 = some (Except.error Error.NoExecutorAvailable) := by
  refine ⟨?_, ?_, ?_⟩
  · exact (c5_boot_fallback
      ⟨true, true, true, false, false, none, false, false, false, false⟩
      (fun _ => some true) 1).1 rfl ExecKind.process (by rfl)
  · exact (c5_boot_fallback
      ⟨false, true, true, true, true, some (some "cid"), true, true, true, true⟩
      (fun _ => some true) 1).2.1 rfl rfl (ExecKind.container "cid") (by rfl)
  · exact ((c5_boot_fallback
      ⟨false, false, false, false, false, none, false, false, false, false⟩
      (fun _ => some true) 1).2.2 rfl rfl).1

/-- C6: `Reason::boot` never resolves with the
`ExecutorFailed("llama-server exited unexpectedly")` error: the readiness
poll loop's only exit is `return true`, so the error branch after
`if check_health.await` is unreachable. -/
theorem c6_executor_failed_unreachable (env : BootEnv) (health : Nat → Option Bool)
    (fuel : Nat) :
    bootModel env health fuel
      ≠ some (Except.error (Error.ExecutorFailed "llama-server exited unexpectedly")) := by
  have hsel : ∀ r, (bootSelect env).1 = Except.error r →
      r ≠ Error.ExecutorFailed "llama-server exited unexpectedly" := by
    intro r hr
    simp only [bootSelect] at hr
    split at hr
    · split at hr
      · injection hr with hr; rw [← hr]; decide
      · split at hr
        · injection hr with hr; rw [← hr]; decide
        · cases hr
    · split at hr
      · split at hr
        · injection hr with hr; rw [← hr]; decide
        · split at hr
          · injection hr with hr; rw [← hr]; decide
          · injection hr with hr; rw [← hr]; decide
          · split at hr
            · injection hr with hr; rw [← hr]; decide
            · split at hr
              · injection hr with hr; rw [← hr]; decide
              · split at hr
                · injection hr with hr; rw [← hr]; decide
                · split at hr
                  · injection hr with hr; rw [← hr]; decide
                  · cases hr
      · injection hr with hr; rw [← hr]; decide
  intro hcontra
  simp only [bootModel] at hcontra
  cases hb : (bootSelect env).1 with
  | error e =>
    rw [hb] at hcontra
    injection hcontra with hx
    injection hx with hx
    exact hsel e hb hx
  | ok k =>
    rw [hb] at hcontra
    cases hch : checkHealth health fuel with
    | none => rw [hch] at hcontra; cases hcontra
    | some b =>
      cases b
      · exact checkHealth_ne_some_false health fuel hch
      · rw [hch] at hcontra; cases hcontra

end Reason
